import Mathlib

/-!
Verification of the chess rules engine in `src/components/ChessGame.tsx`.

The board model, attack detector, move generators, legality filter,
game-state classifiers and the state-updating slices of the click handler
and the opponent move selector are embedded as executable Lean functions,
translated statement by statement from the source file.  Rows and columns
are `Int`, matching the signed arithmetic of the source (directions are
`-1`/`1`); the 8×8 grid itself is total over `Fin 8 × Fin 8` and the
accessor `Board.get` returns `none` off the grid, which is the behaviour
the source guards for with `isValidSquare` before every read.
-/

inductive PieceType where
  | king
  | queen
  | rook
  | bishop
  | knight
  | pawn
deriving DecidableEq, Repr

inductive PieceColor where
  | white
  | black
deriving DecidableEq, Repr

structure Piece where
  type : PieceType
  color : PieceColor
deriving DecidableEq, Repr

def PieceColor.opposite : PieceColor → PieceColor
  | .white => .black
  | .black => .white

/-- A square as the source's `Position` record: signed row and column. -/
structure Pos where
  row : Int
  col : Int
deriving DecidableEq, Repr

/-- The 8×8 grid of optional pieces (`Board` in the source). -/
def Board : Type := Fin 8 → Fin 8 → Option Piece

/-- Function `isValidSquare` from the source. -/
def isValidSquare (r c : Int) : Bool :=
  decide (0 ≤ r) && decide (r < 8) && decide (0 ≤ c) && decide (c < 8)

/-- Read a square; off-grid reads give `none` (the source never reads
off-grid: every access is guarded by `isValidSquare` or a constant index). -/
def Board.get (b : Board) (r c : Int) : Option Piece :=
  if h : 0 ≤ r ∧ r < 8 ∧ 0 ≤ c ∧ c < 8 then
    b ⟨r.toNat, by omega⟩ ⟨c.toNat, by omega⟩
  else none

/-- Write a square (the source's `newBoard[r][c] = p` on a scratch copy). -/
def Board.set (b : Board) (r c : Int) (p : Option Piece) : Board :=
  fun i j => if (i.val : Int) = r ∧ (j.val : Int) = c then p else b i j

theorem Board.get_coe (b : Board) (i j : Fin 8) :
    b.get (i.val : Int) (j.val : Int) = b i j := by
  have hi : (0 : Int) ≤ i.val ∧ (i.val : Int) < 8 ∧ (0 : Int) ≤ j.val ∧ (j.val : Int) < 8 := by
    refine ⟨by omega, ?_, by omega, ?_⟩
    · exact_mod_cast i.isLt
    · exact_mod_cast j.isLt
  rw [Board.get, dif_pos hi]
  congr 1

/-- Knight jump offsets, in the source's order. -/
def knightOffsets : List (Int × Int) :=
  [(-2, -1), (-2, 1), (-1, -2), (-1, 2), (1, -2), (1, 2), (2, -1), (2, 1)]

/-- The eight neighbour offsets, in the order the source's double loop visits them. -/
def kingOffsets : List (Int × Int) :=
  [(-1, -1), (-1, 0), (-1, 1), (0, -1), (0, 1), (1, -1), (1, 0), (1, 1)]

/-- Diagonal ray directions, in the source's order. -/
def diagDirs : List (Int × Int) := [(1, 1), (1, -1), (-1, 1), (-1, -1)]

/-- Orthogonal ray directions, in the source's order. -/
def orthoDirs : List (Int × Int) := [(0, 1), (0, -1), (1, 0), (-1, 0)]

/-- Queen/king move directions, in the source's order. -/
def queenDirs : List (Int × Int) :=
  [(0, 1), (0, -1), (1, 0), (-1, 0), (1, 1), (1, -1), (-1, 1), (-1, -1)]

/-- One sliding-attack ray of `isSquareUnderAttack`: walk from `(r, c)` in
direction `(dr, dc)` while on the board; the first occupied square decides
(it attacks iff it holds a `byColor` piece of one of the two slider types).
The fuel `8` over-approximates the at most seven squares of any ray. -/
def rayAttack (board : Board) (byColor : PieceColor) (t1 t2 : PieceType) :
    Int → Int → Int → Int → Nat → Bool
  | _, _, _, _, 0 => false
  | r, c, dr, dc, fuel + 1 =>
    if isValidSquare r c then
      match board.get r c with
      | some p => p.color == byColor && (p.type == t1 || p.type == t2)
      | none => rayAttack board byColor t1 t2 (r + dr) (c + dc) dr dc fuel
    else false

/-- Pawn-attack part of `isSquareUnderAttack`. -/
def pawnAttacks (pos : Pos) (board : Board) (byColor : PieceColor) : Bool :=
  let pawnDirection : Int := if byColor = .white then -1 else 1
  [(-1 : Int), 1].any fun offset =>
    match board.get (pos.row - pawnDirection) (pos.col + offset) with
    | some p => p.type == .pawn && p.color == byColor
    | none => false

/-- Knight-attack part of `isSquareUnderAttack`. -/
def knightAttacks (pos : Pos) (board : Board) (byColor : PieceColor) : Bool :=
  knightOffsets.any fun d =>
    match board.get (pos.row + d.1) (pos.col + d.2) with
    | some p => p.type == .knight && p.color == byColor
    | none => false

/-- Adjacent-king part of `isSquareUnderAttack`. -/
def kingAttacks (pos : Pos) (board : Board) (byColor : PieceColor) : Bool :=
  kingOffsets.any fun d =>
    match board.get (pos.row + d.1) (pos.col + d.2) with
    | some p => p.type == .king && p.color == byColor
    | none => false

/-- Diagonal bishop/queen part of `isSquareUnderAttack`. -/
def diagAttacks (pos : Pos) (board : Board) (byColor : PieceColor) : Bool :=
  diagDirs.any fun d =>
    rayAttack board byColor .bishop .queen (pos.row + d.1) (pos.col + d.2) d.1 d.2 8

/-- Orthogonal rook/queen part of `isSquareUnderAttack`. -/
def orthoAttacks (pos : Pos) (board : Board) (byColor : PieceColor) : Bool :=
  orthoDirs.any fun d =>
    rayAttack board byColor .rook .queen (pos.row + d.1) (pos.col + d.2) d.1 d.2 8

/-- Function `isSquareUnderAttack` from the source: the five independent checks. -/
def isSquareUnderAttack (pos : Pos) (board : Board) (byColor : PieceColor) : Bool :=
  pawnAttacks pos board byColor || knightAttacks pos board byColor ||
    kingAttacks pos board byColor || diagAttacks pos board byColor ||
    orthoAttacks pos board byColor

/-- The row-major list of all 64 squares, as the source's nested `for` loops
visit them. -/
def squaresList : List (Int × Int) :=
  (List.range 8).flatMap fun (r : Nat) =>
    (List.range 8).map fun (c : Nat) => ((r : Int), (c : Int))

theorem mem_squaresList_iff (p : Int × Int) :
    p ∈ squaresList ↔ 0 ≤ p.1 ∧ p.1 < 8 ∧ 0 ≤ p.2 ∧ p.2 < 8 := by
  cases p with
  | mk r c =>
    constructor
    · intro h
      obtain ⟨a, ha, hmem⟩ := List.mem_flatMap.mp h
      obtain ⟨b, hb, hpb⟩ := List.mem_map.mp hmem
      rw [List.mem_range] at ha hb
      cases hpb
      dsimp only
      omega
    · intro h
      refine List.mem_flatMap.mpr ⟨r.toNat, List.mem_range.mpr (by omega), ?_⟩
      refine List.mem_map.mpr ⟨c.toNat, List.mem_range.mpr (by omega), ?_⟩
      simp only [Prod.mk.injEq]
      constructor <;> omega

/-- Function `findKing` from the source: first square (row-major) holding that
color's king. -/
def findKing (board : Board) (color : PieceColor) : Option Pos :=
  squaresList.findSome? fun q =>
    match board.get q.1 q.2 with
    | some p => if p.type = .king ∧ p.color = color then some ⟨q.1, q.2⟩ else none
    | none => none

/-- Function `isKingInCheck` from the source: `false` when `findKing` finds no king. -/
def isKingInCheck (board : Board) (color : PieceColor) : Bool :=
  match findKing board color with
  | none => false
  | some kingPos => isSquareUnderAttack kingPos board color.opposite

/-- The `isEmptyOrEnemy` helper of `getPseudoLegalMoves`. -/
def isEmptyOrEnemy (board : Board) (color : PieceColor) (r c : Int) : Bool :=
  if isValidSquare r c then
    match board.get r c with
    | none => true
    | some t => t.color != color
  else false

/-- One sliding-move ray of `getPseudoLegalMoves` (bishop/rook/queen):
push empty squares while walking, push and stop on the first enemy piece,
stop silently on a friendly piece or the board edge. -/
def slideRay (board : Board) (color : PieceColor) :
    Int → Int → Int → Int → Nat → List Pos
  | _, _, _, _, 0 => []
  | r, c, dr, dc, fuel + 1 =>
    if isValidSquare r c then
      match board.get r c with
      | some t => if t.color ≠ color then [⟨r, c⟩] else []
      | none => ⟨r, c⟩ :: slideRay board color (r + dr) (c + dc) dr dc fuel
    else []

/-- The pawn case of `getPseudoLegalMoves`: single advance onto an empty
square, double advance from the home rank through empty squares, diagonal
captures onto enemy pieces, and the en passant push onto the target square. -/
def pawnMoves (board : Board) (row col : Int) (color : PieceColor)
    (enPassantTarget : Option Pos) : List Pos :=
  let direction : Int := if color = .white then -1 else 1
  let startRow : Int := if color = .white then 6 else 1
  let forward :=
    if isValidSquare (row + direction) col ∧ board.get (row + direction) col = none then
      if row = startRow ∧ board.get (row + 2 * direction) col = none then
        [(⟨row + direction, col⟩ : Pos), ⟨row + 2 * direction, col⟩]
      else [(⟨row + direction, col⟩ : Pos)]
    else []
  let captures := [(-1 : Int), 1].flatMap fun offset =>
    let newCol := col + offset
    if isValidSquare (row + direction) newCol then
      (match board.get (row + direction) newCol with
        | some target => if target.color ≠ color then [(⟨row + direction, newCol⟩ : Pos)] else []
        | none => []) ++
      (match enPassantTarget with
        | some t =>
          if row + direction = t.row ∧ newCol = t.col then [(⟨row + direction, newCol⟩ : Pos)]
          else []
        | none => [])
    else []
  forward ++ captures

structure CastlingRights where
  whiteKingside : Bool
  whiteQueenside : Bool
  blackKingside : Bool
  blackQueenside : Bool
deriving DecidableEq, Repr

/-- The castling part of the king case of `getPseudoLegalMoves`: guarded by
not being in check, the king standing on its home square, the rights flag,
emptiness of the squares strictly between king and rook, a piece of rook
type on the corner square, and the transit and landing squares not being
attacked by the opponent. -/
def castleMoves (board : Board) (cr : CastlingRights) (color : PieceColor)
    (row col : Int) : List Pos :=
  if isKingInCheck board color then []
  else
    let baseRow : Int := if color = .white then 7 else 0
    if row = baseRow ∧ col = 4 then
      let opp := color.opposite
      let ks :=
        if (if color = .white then cr.whiteKingside else cr.blackKingside) then
          if board.get baseRow 5 = none ∧ board.get baseRow 6 = none ∧
              (board.get baseRow 7).any (fun p => p.type == .rook) = true then
            if isSquareUnderAttack ⟨baseRow, 5⟩ board opp = false ∧
                isSquareUnderAttack ⟨baseRow, 6⟩ board opp = false then
              [(⟨baseRow, 6⟩ : Pos)]
            else []
          else []
        else []
      let qs :=
        if (if color = .white then cr.whiteQueenside else cr.blackQueenside) then
          if board.get baseRow 3 = none ∧ board.get baseRow 2 = none ∧
              board.get baseRow 1 = none ∧
              (board.get baseRow 0).any (fun p => p.type == .rook) = true then
            if isSquareUnderAttack ⟨baseRow, 3⟩ board opp = false ∧
                isSquareUnderAttack ⟨baseRow, 2⟩ board opp = false then
              [(⟨baseRow, 2⟩ : Pos)]
            else []
          else []
        else []
      ks ++ qs
    else []

/-- Function `getPseudoLegalMoves` from the source, with the component state it
closes over (`enPassantTarget`, `castlingRights`) passed explicitly. -/
def getPseudoLegalMoves (pos : Pos) (board : Board) (enPassantTarget : Option Pos)
    (cr : CastlingRights) : List Pos :=
  match board.get pos.row pos.col with
  | none => []
  | some piece =>
    match piece.type with
    | .pawn => pawnMoves board pos.row pos.col piece.color enPassantTarget
    | .knight =>
      knightOffsets.filterMap fun d =>
        if isEmptyOrEnemy board piece.color (pos.row + d.1) (pos.col + d.2) then
          some ⟨pos.row + d.1, pos.col + d.2⟩
        else none
    | .bishop =>
      diagDirs.flatMap fun d =>
        slideRay board piece.color (pos.row + d.1) (pos.col + d.2) d.1 d.2 8
    | .rook =>
      orthoDirs.flatMap fun d =>
        slideRay board piece.color (pos.row + d.1) (pos.col + d.2) d.1 d.2 8
    | .queen =>
      queenDirs.flatMap fun d =>
        slideRay board piece.color (pos.row + d.1) (pos.col + d.2) d.1 d.2 8
    | .king =>
      (queenDirs.filterMap fun d =>
        if isEmptyOrEnemy board piece.color (pos.row + d.1) (pos.col + d.2) then
          some ⟨pos.row + d.1, pos.col + d.2⟩
        else none) ++
      castleMoves board cr piece.color pos.row pos.col

/-- The scratch-board simulation inside `getValidMoves`: en passant pawn
removal, castling rook relocation, then the piece move itself. -/
def simulateMove (board : Board) (pos move : Pos) (piece : Piece)
    (enPassantTarget : Option Pos) : Board :=
  let b1 :=
    match enPassantTarget with
    | some t =>
      if piece.type = PieceType.pawn ∧ move.row = t.row ∧ move.col = t.col then
        let capturedPawnRow :=
          if piece.color = PieceColor.white then move.row + 1 else move.row - 1
        board.set capturedPawnRow move.col none
      else board
    | none => board
  let b2 :=
    if piece.type = .king ∧ (move.col - pos.col).natAbs = 2 then
      let rookFromCol : Int := if move.col > pos.col then 7 else 0
      let rookToCol : Int := if move.col > pos.col then 5 else 3
      (b1.set pos.row rookToCol (b1.get pos.row rookFromCol)).set pos.row rookFromCol none
    else b1
  (b2.set move.row move.col (b2.get pos.row pos.col)).set pos.row pos.col none

/-- The per-move filter of `getValidMoves`: skip any move whose destination
holds a king (of either color), otherwise simulate and keep the move iff the
mover's own king is not in check afterwards. -/
def keepsKingSafe (board : Board) (pos : Pos) (piece : Piece)
    (enPassantTarget : Option Pos) (move : Pos) : Bool :=
  match board.get move.row move.col with
  | some target =>
    if target.type = .king then false
    else !isKingInCheck (simulateMove board pos move piece enPassantTarget) piece.color
  | none => !isKingInCheck (simulateMove board pos move piece enPassantTarget) piece.color

/-- Function `getValidMoves` from the source: the legality filter over
`getPseudoLegalMoves`. -/
def getValidMoves (pos : Pos) (board : Board) (enPassantTarget : Option Pos)
    (cr : CastlingRights) : List Pos :=
  match board.get pos.row pos.col with
  | none => []
  | some piece =>
    (getPseudoLegalMoves pos board enPassantTarget cr).filter
      (keepsKingSafe board pos piece enPassantTarget)

/-- The move-existence loop shared by `checkForCheckmate` and
`checkForStalemate`: does any piece of `color` have a valid move? -/
def sideHasValidMove (board : Board) (color : PieceColor) (enPassantTarget : Option Pos)
    (cr : CastlingRights) : Bool :=
  squaresList.any fun q =>
    match board.get q.1 q.2 with
    | some p => p.color == color && !(getValidMoves ⟨q.1, q.2⟩ board enPassantTarget cr).isEmpty
    | none => false

/-- The union of `getValidMoves` over every piece of `color`, as (from, to)
pairs in row-major piece order (the loop of `makeAIMove`, generalised over
the color). -/
def allValidMoves (board : Board) (color : PieceColor) (enPassantTarget : Option Pos)
    (cr : CastlingRights) : List (Pos × Pos) :=
  squaresList.flatMap fun q =>
    match board.get q.1 q.2 with
    | some p =>
      if p.color = color then
        (getValidMoves ⟨q.1, q.2⟩ board enPassantTarget cr).map fun m => ((⟨q.1, q.2⟩ : Pos), m)
      else []
    | none => []

/-- Function `checkForCheckmate` from the source: in check and no piece of that color
has a valid move. -/
def checkForCheckmate (board : Board) (color : PieceColor) (enPassantTarget : Option Pos)
    (cr : CastlingRights) : Bool :=
  isKingInCheck board color && !sideHasValidMove board color enPassantTarget cr

/-- Function `checkForStalemate` from the source: not in check and no piece of that
color has a valid move. -/
def checkForStalemate (board : Board) (color : PieceColor) (enPassantTarget : Option Pos)
    (cr : CastlingRights) : Bool :=
  !isKingInCheck board color && !sideHasValidMove board color enPassantTarget cr

def PieceColor.initial : PieceColor → String
  | .white => "w"
  | .black => "b"

/-- First character of the source's piece-type name (so both `king` and
`knight` encode as `k`, as `piece.type[0]` does). -/
def PieceType.initial : PieceType → String
  | .king => "k"
  | .queen => "q"
  | .rook => "r"
  | .bishop => "b"
  | .knight => "k"
  | .pawn => "p"

def boolStr (b : Bool) : String := if b then "true" else "false"

/-- Function `boardToString` from the source: the repetition key. -/
def boardToString (board : Board) (turn : PieceColor) (rights : CastlingRights)
    (enPassant : Option Pos) : String :=
  let pieceStr := squaresList.foldl (fun acc q =>
    match board.get q.1 q.2 with
    | some piece => acc ++ piece.color.initial ++ piece.type.initial ++ toString q.1 ++ toString q.2
    | none => acc) ""
  let turnStr := match turn with | .white => "white" | .black => "black"
  let s := pieceStr ++ "|" ++ turnStr ++ "|" ++ boolStr rights.whiteKingside ++
    boolStr rights.whiteQueenside ++ boolStr rights.blackKingside ++ boolStr rights.blackQueenside
  match enPassant with
  | some t => s ++ "|ep" ++ toString t.row ++ toString t.col
  | none => s

/-- The non-king piece (if any) on one square, as collected by the first
scan of `hasInsufficientMaterial`. -/
def nonKingAt (board : Board) (q : Int × Int) : Option Piece :=
  match board.get q.1 q.2 with
  | some p => if p.type ≠ PieceType.king then some p else none
  | none => none

/-- The list of non-king pieces collected by `hasInsufficientMaterial`. -/
def nonKingPieces (board : Board) : List Piece :=
  squaresList.filterMap (nonKingAt board)

/-- The bishop square (if any) at one position, as collected by the inner
scan of `hasInsufficientMaterial`. -/
def bishopAt (board : Board) (q : Int × Int) : Option Pos :=
  match board.get q.1 q.2 with
  | some p => if p.type = PieceType.bishop then some (⟨q.1, q.2⟩ : Pos) else none
  | none => none

/-- The squares of all bishop-type pieces, in scan order (the inner search
of `hasInsufficientMaterial`). -/
def bishopSquares (board : Board) : List Pos :=
  squaresList.filterMap (bishopAt board)

/-- Function `hasInsufficientMaterial` from the source.  In the two-piece case the
source scans for bishop positions keeping the first find as `bishop1Pos` and
the latest later find as `bishop2Pos` (first and last bishop in scan order). -/
def hasInsufficientMaterial (board : Board) : Bool :=
  match nonKingPieces board with
  | [] => true
  | [p] => p.type == PieceType.bishop || p.type == PieceType.knight
  | [p1, p2] =>
    if p1.type = PieceType.bishop ∧ p2.type = PieceType.bishop then
      match (bishopSquares board).head?, (bishopSquares board).tail.getLast? with
      | some b1, some b2 => (b1.row + b1.col) % 2 == (b2.row + b2.col) % 2
      | _, _ => false
    else false
  | _ => false

/-- The rules-relevant component state of the game session (the `useState`
cells of `ChessGame`, minus selection, hint, sound and captured-piece
display state). -/
structure GameState where
  board : Board
  currentTurn : PieceColor
  castlingRights : CastlingRights
  enPassantTarget : Option Pos
  promotionSquare : Option Pos
  whiteInCheck : Bool
  blackInCheck : Bool
  isCheckmate : Bool
  isStalemate : Bool
  isDraw : Bool
  drawReason : String
  halfMoveClock : Nat
  positionHistory : List String

/-- The guard at the top of `handleSquareClick`: moves are only accepted
when it is White's turn, the game is not over, and no promotion is pending. -/
def humanMoveAllowed (st : GameState) : Bool :=
  st.currentTurn == PieceColor.white && !st.isCheckmate && !st.isDraw &&
    !st.promotionSquare.isSome

/-- The move-application slice of `handleSquareClick`, for a click on
`(row, col)` with `selectedSquare` already selected.  Branches that only
touch selection/hint/sound state leave the modelled state unchanged.  The
classifier calls at the end use the pre-move `enPassantTarget` and
`castlingRights`: the source's `checkForCheckmate`/`checkForStalemate`
callbacks close over the component state, and React state writes issued
earlier in the same handler are not visible to them. -/
def handleSquareClick (st : GameState) (selectedSquare : Pos) (row col : Int) : GameState :=
  if !humanMoveAllowed st then st
  else if (⟨row, col⟩ : Pos) ∈
      getValidMoves selectedSquare st.board st.enPassantTarget st.castlingRights then
    match st.board.get selectedSquare.row selectedSquare.col with
    | none => st
    | some movingPiece =>
      if (st.board.get row col).any (fun p => p.type == PieceType.king) then st
      else
        let isCapture0 := (st.board.get row col).isSome
        let epCapture : Bool :=
          match st.enPassantTarget with
          | some t => movingPiece.type == PieceType.pawn && row == t.row && col == t.col
          | none => false
        let board1 :=
          if epCapture then
            let capturedPawnRow :=
              if movingPiece.color = PieceColor.white then row + 1 else row - 1
            st.board.set capturedPawnRow col none
          else st.board
        let isCapture := isCapture0 || epCapture
        let isCastling :=
          movingPiece.type = PieceType.king ∧ (col - selectedSquare.col).natAbs = 2
        let board2 :=
          if isCastling then
            let rookFromCol : Int := if col > selectedSquare.col then 7 else 0
            let rookToCol : Int := if col > selectedSquare.col then 5 else 3
            (board1.set selectedSquare.row rookToCol
              (board1.get selectedSquare.row rookFromCol)).set selectedSquare.row rookFromCol none
          else board1
        let cr1 :=
          if movingPiece.type = PieceType.king then
            if movingPiece.color = PieceColor.white then
              { st.castlingRights with whiteKingside := false, whiteQueenside := false }
            else
              { st.castlingRights with blackKingside := false, blackQueenside := false }
          else st.castlingRights
        let cr2 :=
          if movingPiece.type = PieceType.rook ∧ movingPiece.color = PieceColor.white then
            let a := if selectedSquare.col = 0 then { cr1 with whiteQueenside := false } else cr1
            if selectedSquare.col = 7 then { a with whiteKingside := false } else a
          else cr1
        let newEnPassant : Option Pos :=
          if movingPiece.type = PieceType.pawn ∧ (row - selectedSquare.row).natAbs = 2 then
            some ⟨(if movingPiece.color = PieceColor.white then selectedSquare.row - 1
                   else selectedSquare.row + 1), selectedSquare.col⟩
          else none
        let board3 :=
          (board2.set row col (some movingPiece)).set selectedSquare.row selectedSquare.col none
        if movingPiece.type = PieceType.pawn ∧ row = 0 then
          { st with board := board3, promotionSquare := some ⟨row, col⟩ }
        else
          let newHalfMoveClock :=
            if movingPiece.type = PieceType.pawn ∨ isCapture then 0 else st.halfMoveClock + 1
          if newHalfMoveClock ≥ 100 then
            { st with board := board3, castlingRights := cr2, enPassantTarget := newEnPassant,
                      halfMoveClock := newHalfMoveClock, isDraw := true,
                      drawReason := "Fifty-move rule" }
          else
            let newPositionString := boardToString board3 PieceColor.black cr2 newEnPassant
            let newHistory := st.positionHistory ++ [newPositionString]
            let base : GameState :=
              { st with board := board3, castlingRights := cr2, enPassantTarget := newEnPassant,
                        halfMoveClock := newHalfMoveClock, positionHistory := newHistory }
            if 3 ≤ (newHistory.filter (· == newPositionString)).length then
              { base with isDraw := true, drawReason := "Threefold repetition" }
            else if hasInsufficientMaterial board3 then
              { base with isDraw := true, drawReason := "Insufficient material" }
            else
              let checkBlack := isKingInCheck board3 PieceColor.black
              let base2 := { base with blackInCheck := checkBlack, whiteInCheck := false }
              if checkBlack &&
                  checkForCheckmate board3 PieceColor.black st.enPassantTarget st.castlingRights then
                { base2 with isCheckmate := true }
              else if !checkBlack &&
                  checkForStalemate board3 PieceColor.black st.enPassantTarget st.castlingRights then
                { base2 with isStalemate := true, isDraw := true, drawReason := "Stalemate" }
              else
                { base2 with currentTurn := PieceColor.black }
  else st

/-- Function `handlePromotion` from the source: place the chosen white piece on the
pending promotion square and re-run the check/checkmate classification.
Like the source, it touches neither the en passant target, the half-move
clock, nor the position history. -/
def handlePromotion (st : GameState) (pieceType : PieceType) : GameState :=
  match st.promotionSquare with
  | none => st
  | some sq =>
    let newBoard := st.board.set sq.row sq.col (some ⟨pieceType, PieceColor.white⟩)
    let checkBlack := isKingInCheck newBoard PieceColor.black
    let base := { st with board := newBoard, promotionSquare := none,
                          blackInCheck := checkBlack, whiteInCheck := false }
    if checkBlack &&
        checkForCheckmate newBoard PieceColor.black st.enPassantTarget st.castlingRights then
      { base with isCheckmate := true }
    else
      { base with currentTurn := PieceColor.black }

/-- Function `handleResign` from the source: set the checkmate flag and record the
reason string "White resigned"; nothing else changes. -/
def handleResign (st : GameState) : GameState :=
  { st with isCheckmate := true, drawReason := "White resigned" }

/-- The terminal classification the UI derives from the state flags
(draw beats checkmate; the resignation reason string distinguishes
resignation from a real checkmate). -/
inductive Outcome where
  | ongoing
  | checkmate
  | resignation
  | draw (reason : String)
deriving DecidableEq, Repr

def gameOutcome (st : GameState) : Outcome :=
  if st.isDraw then .draw st.drawReason
  else if st.isCheckmate then
    if st.drawReason == "White resigned" then .resignation else .checkmate
  else .ongoing

/-- The move-collection loop of `makeAIMove`: all valid moves of Black. -/
def aiAllMoves (board : Board) (enPassantTarget : Option Pos) (cr : CastlingRights) :
    List (Pos × Pos) :=
  allValidMoves board PieceColor.black enPassantTarget cr

/-- The list `kingMoves` of `makeAIMove`: moves whose source square holds a king. -/
def aiKingMoves (board : Board) (moves : List (Pos × Pos)) : List (Pos × Pos) :=
  moves.filter fun m => (board.get m.1.row m.1.col).any fun p => p.type == PieceType.king

/-- The list `captureMoves` of `makeAIMove`: moves whose destination square is
occupied (the source tests `!== null`, not the occupant's color). -/
def aiCaptureMoves (board : Board) (moves : List (Pos × Pos)) : List (Pos × Pos) :=
  moves.filter fun m => (board.get m.2.row m.2.col).isSome

/-- The list `makeAIMove` draws its random choice from: when Black is in
check, king moves if any, else occupied-destination moves if any, else all
moves; otherwise all moves. -/
def aiSelectionPool (board : Board) (allMoves : List (Pos × Pos)) : List (Pos × Pos) :=
  if isKingInCheck board PieceColor.black then
    if !(aiKingMoves board allMoves).isEmpty then aiKingMoves board allMoves
    else if !(aiCaptureMoves board allMoves).isEmpty then aiCaptureMoves board allMoves
    else allMoves
  else allMoves

/-- The access `list[Math.floor(Math.random() * list.length)]`, with the random draw
abstracted as an arbitrary natural number reduced mod the length. -/
def pickAt (l : List (Pos × Pos)) (idx : Nat) : Option (Pos × Pos) :=
  l.get? (idx % l.length)

/-- The move `makeAIMove` chooses, as a function of the random draw. -/
def chooseAIMove (board : Board) (enPassantTarget : Option Pos) (cr : CastlingRights)
    (idx : Nat) : Option (Pos × Pos) :=
  pickAt (aiSelectionPool board (aiAllMoves board enPassantTarget cr)) idx

/-- Build a concrete board from a list of (row, col, piece) entries. -/
def boardOfList (l : List (Nat × Nat × Piece)) : Board :=
  fun r c => (l.find? fun e => e.1 == r.val && e.2.1 == c.val).map fun e => e.2.2

/-- The starting position (`initializeBoard` in the source). -/
def initBoard : Board := boardOfList
  [(0, 0, ⟨.rook, .black⟩), (0, 1, ⟨.knight, .black⟩), (0, 2, ⟨.bishop, .black⟩),
   (0, 3, ⟨.queen, .black⟩), (0, 4, ⟨.king, .black⟩), (0, 5, ⟨.bishop, .black⟩),
   (0, 6, ⟨.knight, .black⟩), (0, 7, ⟨.rook, .black⟩),
   (1, 0, ⟨.pawn, .black⟩), (1, 1, ⟨.pawn, .black⟩), (1, 2, ⟨.pawn, .black⟩),
   (1, 3, ⟨.pawn, .black⟩), (1, 4, ⟨.pawn, .black⟩), (1, 5, ⟨.pawn, .black⟩),
   (1, 6, ⟨.pawn, .black⟩), (1, 7, ⟨.pawn, .black⟩),
   (6, 0, ⟨.pawn, .white⟩), (6, 1, ⟨.pawn, .white⟩), (6, 2, ⟨.pawn, .white⟩),
   (6, 3, ⟨.pawn, .white⟩), (6, 4, ⟨.pawn, .white⟩), (6, 5, ⟨.pawn, .white⟩),
   (6, 6, ⟨.pawn, .white⟩), (6, 7, ⟨.pawn, .white⟩),
   (7, 0, ⟨.rook, .white⟩), (7, 1, ⟨.knight, .white⟩), (7, 2, ⟨.bishop, .white⟩),
   (7, 3, ⟨.queen, .white⟩), (7, 4, ⟨.king, .white⟩), (7, 5, ⟨.bishop, .white⟩),
   (7, 6, ⟨.knight, .white⟩), (7, 7, ⟨.rook, .white⟩)]

/-- All four castling rights, as at game start. -/
def fullRights : CastlingRights := ⟨true, true, true, true⟩

/-- Claim C1: every move kept by the legality filter `getValidMoves` leaves
the mover's own king not in check on the simulated board (en passant pawn
removal and castling rook relocation included in the simulation), and no
kept move lands on a square holding a king of either color. -/
theorem C1_legality_filter (board : Board) (ep : Option Pos) (cr : CastlingRights)
    (pos : Pos) (piece : Piece) (hp : board.get pos.row pos.col = some piece)
    (move : Pos) (hm : move ∈ getValidMoves pos board ep cr) :
    isKingInCheck (simulateMove board pos move piece ep) piece.color = false ∧
    ∀ target, board.get move.row move.col = some target → target.type ≠ PieceType.king := by
  simp only [getValidMoves, hp] at hm
  rw [List.mem_filter] at hm
  obtain ⟨hmem, hkeep⟩ := hm
  cases hT : board.get move.row move.col with
  | none =>
    simp only [keepsKingSafe, hT, Bool.not_eq_true'] at hkeep
    exact ⟨hkeep, fun t ht => by cases ht⟩
  | some target =>
    simp only [keepsKingSafe, hT] at hkeep
    by_cases hk : target.type = PieceType.king
    · rw [if_pos hk] at hkeep
      cases hkeep
    · rw [if_neg hk, Bool.not_eq_true'] at hkeep
      refine ⟨hkeep, fun t ht => ?_⟩
      injection ht with h
      rw [← h]
      exact hk

/-- Witness for C1 at a concrete input: the pawn move e2–e3 from the
starting position. -/
theorem C1_legality_filter_witness :
    isKingInCheck
      (simulateMove initBoard ⟨6, 4⟩ ⟨5, 4⟩ ⟨PieceType.pawn, PieceColor.white⟩ none)
      PieceColor.white = false ∧
    ∀ target, initBoard.get 5 4 = some target → target.type ≠ PieceType.king :=
  C1_legality_filter initBoard none fullRights ⟨6, 4⟩ ⟨PieceType.pawn, PieceColor.white⟩
    (by decide) ⟨5, 4⟩ (by decide)

theorem sideHasValidMove_iff_allValidMoves (board : Board) (color : PieceColor)
    (ep : Option Pos) (cr : CastlingRights) :
    sideHasValidMove board color ep cr = true ↔ allValidMoves board color ep cr ≠ [] := by
  rw [sideHasValidMove, List.any_eq_true, allValidMoves, Ne, List.flatMap_eq_nil_iff]
  rw [not_forall]
  constructor
  · rintro ⟨q, hq, hf⟩
    refine ⟨q, ?_⟩
    rw [Classical.not_imp]
    refine ⟨hq, ?_⟩
    cases hG : board.get q.1 q.2 with
    | none =>
      rw [hG] at hf
      exact absurd hf (by simp)
    | some p =>
      rw [hG] at hf
      dsimp only at hf
      rw [Bool.and_eq_true, beq_iff_eq] at hf
      dsimp only
      rw [if_pos hf.1]
      intro hnil
      rw [List.map_eq_nil_iff] at hnil
      rw [hnil] at hf
      exact absurd hf.2 (by simp)
  · rintro ⟨q, hq⟩
    rw [Classical.not_imp] at hq
    obtain ⟨hmem, hne⟩ := hq
    refine ⟨q, hmem, ?_⟩
    cases hG : board.get q.1 q.2 with
    | none =>
      rw [hG] at hne
      exact absurd rfl hne
    | some p =>
      rw [hG] at hne
      dsimp only at hne
      dsimp only
      by_cases hc : p.color = color
      · rw [Bool.and_eq_true, beq_iff_eq]
        refine ⟨hc, ?_⟩
        rw [if_pos hc] at hne
        rw [Bool.not_eq_true', ← Bool.not_eq_true, List.isEmpty_iff]
        intro hnil
        rw [hnil] at hne
        exact hne rfl
      · rw [if_neg hc] at hne
        exact absurd rfl hne

/-- Claim C2: `checkForCheckmate` and `checkForStalemate` are never both
true; each holds exactly when the union of `getValidMoves` over all pieces
of the color is empty, and they differ exactly in `isKingInCheck`. -/
theorem C2_checkmate_stalemate (board : Board) (color : PieceColor) (ep : Option Pos)
    (cr : CastlingRights) :
    ¬(checkForCheckmate board color ep cr = true ∧ checkForStalemate board color ep cr = true) ∧
    (checkForCheckmate board color ep cr = true ↔
      isKingInCheck board color = true ∧ allValidMoves board color ep cr = []) ∧
    (checkForStalemate board color ep cr = true ↔
      isKingInCheck board color = false ∧ allValidMoves board color ep cr = []) := by
  have hside : sideHasValidMove board color ep cr = false ↔
      allValidMoves board color ep cr = [] := by
    rw [← Bool.not_eq_true, sideHasValidMove_iff_allValidMoves, not_not]
  have hmate : checkForCheckmate board color ep cr = true ↔
      isKingInCheck board color = true ∧ allValidMoves board color ep cr = [] := by
    rw [checkForCheckmate, Bool.and_eq_true, Bool.not_eq_true', hside]
  have hstale : checkForStalemate board color ep cr = true ↔
      isKingInCheck board color = false ∧ allValidMoves board color ep cr = [] := by
    rw [checkForStalemate, Bool.and_eq_true, Bool.not_eq_true', Bool.not_eq_true', hside]
  refine ⟨?_, hmate, hstale⟩
  rintro ⟨h1, h2⟩
  rw [hmate] at h1
  rw [hstale] at h2
  rw [h1.1] at h2
  cases h2.1

theorem Board.get_pos (b : Board) (r c : Int) (h : 0 ≤ r ∧ r < 8 ∧ 0 ≤ c ∧ c < 8) :
    b.get r c = b ⟨r.toNat, by omega⟩ ⟨c.toNat, by omega⟩ := dif_pos h

/-- Claim C10: on a board with no king of the given color, `findKing`
returns `none`, `isKingInCheck` returns `false` rather than failing, so
`checkForCheckmate` is `false` and `checkForStalemate` reduces to the
no-valid-moves test, exactly as for any not-in-check position. -/
theorem C10_kingless_no_check (board : Board) (color : PieceColor) (ep : Option Pos)
    (cr : CastlingRights)
    (h : ∀ (i j : Fin 8), board i j ≠ some ⟨PieceType.king, color⟩) :
    findKing board color = none ∧ isKingInCheck board color = false ∧
    checkForCheckmate board color ep cr = false ∧
    (checkForStalemate board color ep cr = true ↔ allValidMoves board color ep cr = []) := by
  have hfind : findKing board color = none := by
    rw [findKing, List.findSome?_eq_none_iff]
    intro q hq
    obtain ⟨h1, h2, h3, h4⟩ := (mem_squaresList_iff q).mp hq
    rw [Board.get_pos board q.1 q.2 ⟨h1, h2, h3, h4⟩]
    cases hG : board ⟨q.1.toNat, by omega⟩ ⟨q.2.toNat, by omega⟩ with
    | none => rfl
    | some p =>
      dsimp only
      rw [if_neg]
      rintro ⟨ht, hc⟩
      apply h ⟨q.1.toNat, by omega⟩ ⟨q.2.toNat, by omega⟩
      rw [hG]
      cases p
      cases ht
      cases hc
      rfl
  have hcheck : isKingInCheck board color = false := by
    rw [isKingInCheck, hfind]
  have hside : sideHasValidMove board color ep cr = false ↔
      allValidMoves board color ep cr = [] := by
    rw [← Bool.not_eq_true, sideHasValidMove_iff_allValidMoves, not_not]
  refine ⟨hfind, hcheck, ?_, ?_⟩
  · rw [checkForCheckmate, hcheck, Bool.false_and]
  · rw [checkForStalemate, hcheck]
    simp only [Bool.and_eq_true, Bool.not_eq_true', hside]
    simp

/-- A board holding only the white king. -/
def whiteKingBoard : Board := boardOfList [(7, 4, ⟨.king, .white⟩)]

/-- Witness for C10: the board with only a white king has no black king;
the classifiers treat it as a not-in-check position for Black. -/
theorem C10_kingless_no_check_witness :
    findKing whiteKingBoard PieceColor.black = none ∧
    isKingInCheck whiteKingBoard PieceColor.black = false ∧
    checkForCheckmate whiteKingBoard PieceColor.black none fullRights = false ∧
    (checkForStalemate whiteKingBoard PieceColor.black none fullRights = true ↔
      allValidMoves whiteKingBoard PieceColor.black none fullRights = []) :=
  C10_kingless_no_check whiteKingBoard PieceColor.black none fullRights (by decide)

/-- The rules-relevant state at game start (`handleReset` values). -/
def initialGameState : GameState :=
  { board := initBoard, currentTurn := PieceColor.white, castlingRights := fullRights,
    enPassantTarget := none, promotionSquare := none, whiteInCheck := false,
    blackInCheck := false, isCheckmate := false, isStalemate := false, isDraw := false,
    drawReason := "", halfMoveClock := 0, positionHistory := [] }

/-- Claim C9: from any in-progress state, `handleResign` yields a terminal
state classified as resignation (distinct from checkmate, stalemate and
every draw reason), it changes no move-related state (board, history,
clock, en passant target, turn), and no further square click can change the
state — all without consulting move legality. -/
theorem C9_resignation (st : GameState) (h1 : st.isCheckmate = false)
    (h2 : st.isDraw = false) :
    gameOutcome st = Outcome.ongoing ∧
    gameOutcome (handleResign st) = Outcome.resignation ∧
    (∀ s, Outcome.resignation ≠ Outcome.draw s) ∧
    Outcome.resignation ≠ Outcome.checkmate ∧
    (handleResign st).board = st.board ∧
    (handleResign st).positionHistory = st.positionHistory ∧
    (handleResign st).halfMoveClock = st.halfMoveClock ∧
    (handleResign st).enPassantTarget = st.enPassantTarget ∧
    (handleResign st).currentTurn = st.currentTurn ∧
    humanMoveAllowed (handleResign st) = false ∧
    (∀ sel r c, handleSquareClick (handleResign st) sel r c = handleResign st) := by
  have hallow : humanMoveAllowed (handleResign st) = false := by
    simp [humanMoveAllowed, handleResign]
  refine ⟨?_, ?_, ?_, ?_, rfl, rfl, rfl, rfl, rfl, hallow, ?_⟩
  · simp [gameOutcome, h1, h2]
  · simp [gameOutcome, handleResign, h2]
  · intro s hcon
    cases hcon
  · intro hcon
    cases hcon
  · intro sel r c
    rw [handleSquareClick, hallow]
    simp

/-- Witness for C9: resigning the fresh game classifies as resignation. -/
theorem C9_resignation_witness :
    gameOutcome (handleResign initialGameState) = Outcome.resignation :=
  (C9_resignation initialGameState rfl rfl).2.1

theorem bishopSquares_length_on (board : Board) (l : List (Int × Int)) :
    (l.filterMap (bishopAt board)).length =
      ((l.filterMap (nonKingAt board)).filter fun p => p.type == PieceType.bishop).length := by
  induction l with
  | nil => rfl
  | cons q l ih =>
    rw [List.filterMap_cons, List.filterMap_cons]
    cases hG : board.get q.1 q.2 with
    | none =>
      rw [bishopAt, nonKingAt, hG]
      exact ih
    | some p =>
      rw [bishopAt, nonKingAt, hG]
      dsimp only
      by_cases hb : p.type = PieceType.bishop
      · have hk : p.type ≠ PieceType.king := by rw [hb]; intro hcon; cases hcon
        rw [if_pos hb, if_pos hk, List.filter_cons]
        simp only [hb, List.length_cons, ih]
        simp
      · rw [if_neg hb]
        by_cases hk : p.type ≠ PieceType.king
        · rw [if_pos hk, List.filter_cons]
          have : (p.type == PieceType.bishop) = false := by
            rw [beq_eq_false_iff_ne]
            exact hb
          rw [this]
          simpa using ih
        · rw [if_neg hk]
          exact ih

theorem bishopSquares_length (board : Board) :
    (bishopSquares board).length =
      ((nonKingPieces board).filter fun p => p.type == PieceType.bishop).length :=
  bishopSquares_length_on board squaresList

/-- The closed set of drawn material combinations exactly as claim C5 words
it: bare kings; a single minor piece beside the kings; king+bishop versus
king+bishop (one bishop each side) with both bishops on same-colored
squares.  Written from the claim, for comparison with
`hasInsufficientMaterial`. -/
def claimInsufficientMaterial (board : Board) : Bool :=
  match nonKingPieces board with
  | [] => true
  | [p] => p.type == PieceType.bishop || p.type == PieceType.knight
  | [p1, p2] =>
    p1.type == PieceType.bishop && p2.type == PieceType.bishop &&
    p1.color != p2.color &&
    (match bishopSquares board with
     | [b1, b2] => (b1.row + b1.col) % 2 == (b2.row + b2.col) % 2
     | _ => false)
  | _ => false

/-- Two same-colored-square white bishops beside the two kings: a board the
claim's closed set excludes (the two bishops belong to the same side). -/
def sameSideBishopsBoard : Board := boardOfList
  [(0, 4, ⟨.king, .black⟩), (2, 2, ⟨.bishop, .white⟩), (4, 4, ⟨.bishop, .white⟩),
   (7, 4, ⟨.king, .white⟩)]

/-- Counterexample to claim C5 as stated: with one king per color and two
white bishops on same-colored squares, `hasInsufficientMaterial` returns
`true`, although the material is not king+bishop versus king+bishop, so the
claim's closed set says `false`. -/
theorem C5_counterexample :
    hasInsufficientMaterial sameSideBishopsBoard = true ∧
    claimInsufficientMaterial sameSideBishopsBoard = false ∧
    nonKingPieces sameSideBishopsBoard =
      [⟨PieceType.bishop, PieceColor.white⟩, ⟨PieceType.bishop, PieceColor.white⟩] ∧
    (squaresList.filter fun q =>
      sameSideBishopsBoard.get q.1 q.2 = some ⟨PieceType.king, PieceColor.white⟩).length = 1 ∧
    (squaresList.filter fun q =>
      sameSideBishopsBoard.get q.1 q.2 = some ⟨PieceType.king, PieceColor.black⟩).length = 1 := by
  decide

/-- Claim C5 as amended: `hasInsufficientMaterial` is true exactly for bare
kings, a single minor piece, or exactly two non-king pieces that are both
bishops standing on same-colored squares — regardless of whether the two
bishops belong to the same or to opposite sides. -/
theorem C5_insufficient_material (board : Board) :
    hasInsufficientMaterial board = true ↔
      (nonKingPieces board = [] ∨
       (∃ p, nonKingPieces board = [p] ∧
          (p.type = PieceType.bishop ∨ p.type = PieceType.knight)) ∨
       ((nonKingPieces board).length = 2 ∧
        (∀ p ∈ nonKingPieces board, p.type = PieceType.bishop) ∧
        (∀ b1 ∈ bishopSquares board, ∀ b2 ∈ bishopSquares board,
          (b1.row + b1.col) % 2 = (b2.row + b2.col) % 2))) := by
  rcases hnk : nonKingPieces board with - | ⟨p1, - | ⟨p2, - | ⟨p3, rest⟩⟩⟩
  · rw [hasInsufficientMaterial, hnk]
    simp
  · rw [hasInsufficientMaterial, hnk]
    simp only [List.cons_ne_nil, false_or, List.length_cons, List.length_nil]
    constructor
    · intro h
      left
      refine ⟨p1, rfl, ?_⟩
      rcases Bool.or_eq_true .. ▸ h with h1 | h1
      · exact Or.inl (beq_iff_eq.mp h1)
      · exact Or.inr (beq_iff_eq.mp h1)
    · rintro (⟨p, hp, hpt⟩ | ⟨hlen, -⟩)
      · injection hp with h1 h2
        subst h1
        rcases hpt with h | h
        · rw [h]
          rfl
        · rw [h]
          rfl
      · omega
  · -- exactly two non-king pieces
    rw [hasInsufficientMaterial, hnk]
    by_cases hb : p1.type = PieceType.bishop ∧ p2.type = PieceType.bishop
    · dsimp only
      rw [if_pos hb]
      have hfl : ((nonKingPieces board).filter fun p => p.type == PieceType.bishop).length = 2 := by
        rw [hnk, List.filter_cons, List.filter_cons]
        simp [hb.1, hb.2]
      have hbs2 : (bishopSquares board).length = 2 := by
        rw [bishopSquares_length, hfl]
      obtain ⟨b1, b2, hbs⟩ := List.length_eq_two.mp hbs2
      rw [hbs]
      constructor
      · intro h
        have hcolors : (b1.row + b1.col) % 2 = (b2.row + b2.col) % 2 :=
          beq_iff_eq.mp
            (show ((b1.row + b1.col) % 2 == (b2.row + b2.col) % 2) = true from h)
        refine Or.inr (Or.inr ⟨rfl, fun p hp => ?_, fun x hx y hy => ?_⟩)
        · rcases List.mem_pair.mp hp with h1 | h1
          · rw [h1]
            exact hb.1
          · rw [h1]
            exact hb.2
        · rcases List.mem_pair.mp hx with rfl | rfl <;>
            rcases List.mem_pair.mp hy with rfl | rfl
          · rfl
          · exact hcolors
          · exact hcolors.symm
          · rfl
      · rintro (hcon | ⟨p, hp, -⟩ | ⟨-, -, hpairs⟩)
        · exact absurd hcon (by simp)
        · injection hp with h1 h2
          exact absurd h2 (by simp)
        · have hcolors := hpairs b1 (by simp) b2 (by simp)
          show ((b1.row + b1.col) % 2 == (b2.row + b2.col) % 2) = true
          rw [beq_iff_eq]
          exact hcolors
    · dsimp only
      rw [if_neg hb]
      constructor
      · intro hcon
        cases hcon
      · rintro (hcon | ⟨p, hp, -⟩ | ⟨-, hall, -⟩)
        · exact absurd hcon (by simp)
        · injection hp with h1 h2
          exact absurd h2 (by simp)
        · exact absurd ⟨hall p1 (by simp), hall p2 (by simp)⟩ hb
  · -- three or more non-king pieces
    rw [hasInsufficientMaterial, hnk]
    constructor
    · intro hcon
      exact Bool.noConfusion (show false = true from hcon)
    · rintro (hcon | ⟨p, hp, -⟩ | ⟨hlen2, -⟩)
      · exact absurd hcon (by simp)
      · injection hp with h1 h2
        exact absurd h2 (by simp)
      · simp only [List.length_cons] at hlen2
        omega

/-- A reachable mid-game position: White to move with a pawn one step from
promotion on (1,0), while Black's immediately preceding double pawn step
(1,4)→(3,4) left the en passant target set to (2,4). -/
def promotionBugBoard : Board := boardOfList
  [(1, 0, ⟨.pawn, .white⟩), (3, 4, ⟨.pawn, .black⟩), (5, 7, ⟨.king, .black⟩),
   (7, 0, ⟨.king, .white⟩)]

def promotionBugState : GameState :=
  { board := promotionBugBoard, currentTurn := PieceColor.white,
    castlingRights := ⟨false, false, false, false⟩, enPassantTarget := some ⟨2, 4⟩,
    promotionSquare := none, whiteInCheck := false, blackInCheck := false,
    isCheckmate := false, isStalemate := false, isDraw := false, drawReason := "",
    halfMoveClock := 37, positionHistory := [] }

/-- Claim C4 fails on the code: the promotion move (1,0)→(0,0) is an applied
move that is not a double pawn advance, yet neither the click handler (which
returns before its `setEnPassantTarget` call to await the promotion choice)
nor `handlePromotion` clears the en passant target — it survives the whole
ply at its stale value (2,4). -/
theorem C4_en_passant_not_cleared :
    (⟨0, 0⟩ : Pos) ∈ getValidMoves ⟨1, 0⟩ promotionBugState.board
      promotionBugState.enPassantTarget promotionBugState.castlingRights ∧
    ((0 : Int) - 1).natAbs ≠ 2 ∧
    (handleSquareClick promotionBugState ⟨1, 0⟩ 0 0).enPassantTarget = some ⟨2, 4⟩ ∧
    (handlePromotion (handleSquareClick promotionBugState ⟨1, 0⟩ 0 0)
        PieceType.queen).enPassantTarget = some ⟨2, 4⟩ := by
  decide

/-- Claim C6 fails on the code: the promotion move (1,0)→(0,0) moves a pawn,
so the half-move clock must reset to 0, but the click handler returns before
its clock update and `handlePromotion` never touches the clock, so it stays
at its pre-move value 37 for the whole ply. -/
theorem C6_half_move_clock_not_reset :
    promotionBugState.halfMoveClock = 37 ∧
    promotionBugState.board.get 1 0 = some ⟨PieceType.pawn, PieceColor.white⟩ ∧
    (⟨0, 0⟩ : Pos) ∈ getValidMoves ⟨1, 0⟩ promotionBugState.board
      promotionBugState.enPassantTarget promotionBugState.castlingRights ∧
    (handleSquareClick promotionBugState ⟨1, 0⟩ 0 0).halfMoveClock = 37 ∧
    (handlePromotion (handleSquareClick promotionBugState ⟨1, 0⟩ 0 0)
        PieceType.queen).halfMoveClock = 37 := by
  decide

/-- Claim C7 fails on the code: the promotion move (1,0)→(0,0) is an applied
move, yet no position key is appended for it — the click handler returns
before its history update and `handlePromotion` never touches the history,
which stays empty across the whole ply. -/
theorem C7_history_not_appended :
    promotionBugState.positionHistory = [] ∧
    (⟨0, 0⟩ : Pos) ∈ getValidMoves ⟨1, 0⟩ promotionBugState.board
      promotionBugState.enPassantTarget promotionBugState.castlingRights ∧
    (handleSquareClick promotionBugState ⟨1, 0⟩ 0 0).positionHistory = [] ∧
    (handlePromotion (handleSquareClick promotionBugState ⟨1, 0⟩ 0 0)
        PieceType.queen).positionHistory = [] := by
  decide

theorem rayAttack_succ (board : Board) (byColor : PieceColor) (t1 t2 : PieceType)
    (r c dr dc : Int) (fuel : Nat) :
    rayAttack board byColor t1 t2 r c dr dc (fuel + 1) =
      if isValidSquare r c then
        match board.get r c with
        | some p => p.color == byColor && (p.type == t1 || p.type == t2)
        | none => rayAttack board byColor t1 t2 (r + dr) (c + dc) dr dc fuel
      else false := rfl

theorem isValidSquare_eq_true {r c : Int} (h : 0 ≤ r ∧ r < 8 ∧ 0 ≤ c ∧ c < 8) :
    isValidSquare r c = true := by
  simp only [isValidSquare, Bool.and_eq_true, decide_eq_true_eq]
  exact ⟨⟨⟨h.1, h.2.1⟩, h.2.2.1⟩, h.2.2.2⟩

/-- A rook of the attacking color on the kingside corner (row, 7) always
attacks the castling landing square (row, 6): the orthogonal ray hits it
immediately. -/
theorem enemy_rook_attacks_kingside (board : Board) (opp : PieceColor) (row : Int)
    (hrow : 0 ≤ row ∧ row < 8) (p : Piece) (h7 : board.get row 7 = some p)
    (hpt : p.type = PieceType.rook) (hpc : p.color = opp) :
    isSquareUnderAttack ⟨row, 6⟩ board opp = true := by
  have hray : rayAttack board opp PieceType.rook PieceType.queen (row + 0) (6 + 1)
      0 1 8 = true := by
    have e1 : row + (0 : Int) = row := by omega
    have e2 : (6 : Int) + 1 = 7 := by norm_num
    rw [e1, e2]
    show rayAttack board opp PieceType.rook PieceType.queen row 7 0 1 (7 + 1) = true
    rw [rayAttack_succ, isValidSquare_eq_true ⟨hrow.1, hrow.2, by omega, by omega⟩,
      if_pos rfl, h7]
    dsimp only
    rw [hpt, hpc]
    simp
  have hortho : orthoAttacks ⟨row, 6⟩ board opp = true := by
    simp only [orthoAttacks]
    rw [List.any_eq_true]
    exact ⟨(0, 1), by simp [orthoDirs], hray⟩
  simp only [isSquareUnderAttack]
  rw [hortho, Bool.or_true]

/-- A rook of the attacking color on the queenside corner (row, 0), with
(row, 1) empty, always attacks the castling landing square (row, 2). -/
theorem enemy_rook_attacks_queenside (board : Board) (opp : PieceColor) (row : Int)
    (hrow : 0 ≤ row ∧ row < 8) (p : Piece) (h1 : board.get row 1 = none)
    (h0 : board.get row 0 = some p) (hpt : p.type = PieceType.rook) (hpc : p.color = opp) :
    isSquareUnderAttack ⟨row, 2⟩ board opp = true := by
  have hray : rayAttack board opp PieceType.rook PieceType.queen (row + 0) (2 + -1)
      0 (-1) 8 = true := by
    have e1 : row + (0 : Int) = row := by omega
    have e2 : (2 : Int) + -1 = 1 := by norm_num
    rw [e1, e2]
    show rayAttack board opp PieceType.rook PieceType.queen row 1 0 (-1) (7 + 1) = true
    rw [rayAttack_succ, isValidSquare_eq_true ⟨hrow.1, hrow.2, by omega, by omega⟩,
      if_pos rfl, h1]
    dsimp only
    have e3 : row + (0 : Int) = row := by omega
    have e4 : (1 : Int) + -1 = 0 := by norm_num
    rw [e3, e4]
    show rayAttack board opp PieceType.rook PieceType.queen row 0 0 (-1) (6 + 1) = true
    rw [rayAttack_succ, isValidSquare_eq_true ⟨hrow.1, hrow.2, by omega, by omega⟩,
      if_pos rfl, h0]
    dsimp only
    rw [hpt, hpc]
    simp
  have hortho : orthoAttacks ⟨row, 2⟩ board opp = true := by
    simp only [orthoAttacks]
    rw [List.any_eq_true]
    exact ⟨(0, -1), by simp [orthoDirs], hray⟩
  simp only [isSquareUnderAttack]
  rw [hortho, Bool.or_true]

theorem mem_ite_list_nil {α : Type} {c : Prop} [Decidable c] {l : List α} {x : α} :
    (x ∈ if c then l else []) ↔ c ∧ x ∈ l := by
  split
  · next h => simp [h]
  · next h => simp [h]

theorem mem_ite_nil_list {α : Type} {c : Prop} [Decidable c] {l : List α} {x : α} :
    (x ∈ if c then [] else l) ↔ ¬c ∧ x ∈ l := by
  split
  · next h => simp [h]
  · next h => simp [h]

/-- Every plain (non-castling) king move changes the column by at most one. -/
theorem king_basic_col_bound (board : Board) (color : PieceColor) (row col : Int) (x : Pos)
    (hx : x ∈ queenDirs.filterMap fun d =>
      if isEmptyOrEnemy board color (row + d.1) (col + d.2) then
        some (⟨row + d.1, col + d.2⟩ : Pos)
      else none) :
    -1 ≤ x.col - col ∧ x.col - col ≤ 1 := by
  obtain ⟨d, hd, hg⟩ := List.mem_filterMap.mp hx
  have hbound : -1 ≤ d.2 ∧ d.2 ≤ 1 := by fin_cases hd <;> decide
  revert hg
  split
  · intro hg
    injection hg with hg
    rw [← hg]
    dsimp only
    omega
  · intro hg
    cases hg

theorem opposite_of_ne {a b : PieceColor} (h : ¬a = b) : a = b.opposite := by
  cases a <;> cases b <;> simp_all [PieceColor.opposite]

/-- Claim C3: with a king of `color` on its home square, the pseudo-legal
generator emits the two-square castling move (to column 6 kingside, to
column 2 queenside) if and only if the matching rights flag is set, every
square strictly between king and rook is empty, a rook OF THAT COLOR stands
on the home corner, the king is not in check, and neither the transit nor
the landing square is attacked by the opponent.  (The source only tests the
corner piece's type, not its color, but a corner rook of the opposing color
always attacks the transit/landing squares, so the colored statement still
holds.) -/
theorem C3_castling_generation (board : Board) (ep : Option Pos) (cr : CastlingRights)
    (color : PieceColor) (baseRow : Int)
    (hbr : baseRow = if color = PieceColor.white then 7 else 0)
    (hk : board.get baseRow 4 = some ⟨PieceType.king, color⟩) :
    ((⟨baseRow, 6⟩ : Pos) ∈ getPseudoLegalMoves ⟨baseRow, 4⟩ board ep cr ↔
      ((if color = PieceColor.white then cr.whiteKingside else cr.blackKingside) = true ∧
       board.get baseRow 5 = none ∧ board.get baseRow 6 = none ∧
       board.get baseRow 7 = some ⟨PieceType.rook, color⟩ ∧
       isKingInCheck board color = false ∧
       isSquareUnderAttack ⟨baseRow, 5⟩ board color.opposite = false ∧
       isSquareUnderAttack ⟨baseRow, 6⟩ board color.opposite = false)) ∧
    ((⟨baseRow, 2⟩ : Pos) ∈ getPseudoLegalMoves ⟨baseRow, 4⟩ board ep cr ↔
      ((if color = PieceColor.white then cr.whiteQueenside else cr.blackQueenside) = true ∧
       board.get baseRow 3 = none ∧ board.get baseRow 2 = none ∧ board.get baseRow 1 = none ∧
       board.get baseRow 0 = some ⟨PieceType.rook, color⟩ ∧
       isKingInCheck board color = false ∧
       isSquareUnderAttack ⟨baseRow, 3⟩ board color.opposite = false ∧
       isSquareUnderAttack ⟨baseRow, 2⟩ board color.opposite = false)) := by
  have hrow : 0 ≤ baseRow ∧ baseRow < 8 := by
    rw [hbr]
    split <;> norm_num
  constructor
  · -- kingside
    simp only [getPseudoLegalMoves, hk, List.mem_append]
    constructor
    · rintro (hbasic | hcastle)
      · have hb := king_basic_col_bound board color baseRow 4 _ hbasic
        dsimp only at hb
        omega
      · simp only [castleMoves] at hcastle
        rw [← hbr] at hcastle
        rw [mem_ite_nil_list] at hcastle
        obtain ⟨hcheck, hcastle⟩ := hcastle
        rw [if_pos (⟨rfl, trivial⟩ : baseRow = baseRow ∧ True)] at hcastle
        rw [List.mem_append] at hcastle
        rcases hcastle with hks | hqs
        · rw [mem_ite_list_nil, mem_ite_list_nil, mem_ite_list_nil] at hks
          obtain ⟨hflag, ⟨h5, h6, hany⟩, ⟨ha5, ha6⟩, -⟩ := hks
          cases hG : board.get baseRow 7 with
          | none =>
            rw [hG] at hany
            simp at hany
          | some p =>
            rw [hG] at hany
            have hpt : p.type = PieceType.rook := by simpa using hany
            by_cases hpc : p.color = color
            · refine ⟨hflag, h5, h6, ?_, Bool.eq_false_iff.mpr hcheck, ha5, ha6⟩
              cases p
              cases hpt
              cases hpc
              rfl
            · have hattack := enemy_rook_attacks_kingside board color.opposite baseRow hrow p
                hG hpt (opposite_of_ne hpc)
              rw [hattack] at ha6
              cases ha6
        · rw [mem_ite_list_nil, mem_ite_list_nil, mem_ite_list_nil] at hqs
          obtain ⟨-, -, -, hmem⟩ := hqs
          simp at hmem
    · rintro ⟨hflag, h5, h6, h7, hcheck, ha5, ha6⟩
      right
      simp only [castleMoves]
      rw [← hbr]
      rw [mem_ite_nil_list]
      refine ⟨by rw [hcheck]; simp, ?_⟩
      rw [if_pos (⟨rfl, trivial⟩ : baseRow = baseRow ∧ True)]
      rw [List.mem_append]
      left
      rw [mem_ite_list_nil, mem_ite_list_nil, mem_ite_list_nil]
      refine ⟨hflag, ⟨h5, h6, ?_⟩, ⟨ha5, ha6⟩, by simp⟩
      rw [h7]
      rfl
  · -- queenside
    simp only [getPseudoLegalMoves, hk, List.mem_append]
    constructor
    · rintro (hbasic | hcastle)
      · have hb := king_basic_col_bound board color baseRow 4 _ hbasic
        dsimp only at hb
        omega
      · simp only [castleMoves] at hcastle
        rw [← hbr] at hcastle
        rw [mem_ite_nil_list] at hcastle
        obtain ⟨hcheck, hcastle⟩ := hcastle
        rw [if_pos (⟨rfl, trivial⟩ : baseRow = baseRow ∧ True)] at hcastle
        rw [List.mem_append] at hcastle
        rcases hcastle with hks | hqs
        · rw [mem_ite_list_nil, mem_ite_list_nil, mem_ite_list_nil] at hks
          obtain ⟨-, -, -, hmem⟩ := hks
          simp at hmem
        · rw [mem_ite_list_nil, mem_ite_list_nil, mem_ite_list_nil] at hqs
          obtain ⟨hflag, ⟨h3, h2, h1, hany⟩, ⟨ha3, ha2⟩, -⟩ := hqs
          cases hG : board.get baseRow 0 with
          | none =>
            rw [hG] at hany
            simp at hany
          | some p =>
            rw [hG] at hany
            have hpt : p.type = PieceType.rook := by simpa using hany
            by_cases hpc : p.color = color
            · refine ⟨hflag, h3, h2, h1, ?_, Bool.eq_false_iff.mpr hcheck, ha3, ha2⟩
              cases p
              cases hpt
              cases hpc
              rfl
            · have hattack := enemy_rook_attacks_queenside board color.opposite baseRow hrow p
                h1 hG hpt (opposite_of_ne hpc)
              rw [hattack] at ha2
              cases ha2
    · rintro ⟨hflag, h3, h2, h1, h0, hcheck, ha3, ha2⟩
      right
      simp only [castleMoves]
      rw [← hbr]
      rw [mem_ite_nil_list]
      refine ⟨by rw [hcheck]; simp, ?_⟩
      rw [if_pos (⟨rfl, trivial⟩ : baseRow = baseRow ∧ True)]
      rw [List.mem_append]
      right
      rw [mem_ite_list_nil, mem_ite_list_nil, mem_ite_list_nil]
      refine ⟨hflag, ⟨h3, h2, h1, ?_⟩, ⟨ha3, ha2⟩, by simp⟩
      rw [h0]
      rfl

/-- Witness board for C3: both White castles available. -/
def castleReadyBoard : Board := boardOfList
  [(0, 4, ⟨.king, .black⟩), (7, 0, ⟨.rook, .white⟩), (7, 4, ⟨.king, .white⟩),
   (7, 7, ⟨.rook, .white⟩)]

/-- Witness for C3 at a concrete castling-ready position (kingside part). -/
theorem C3_castling_generation_witness :
    (⟨7, 6⟩ : Pos) ∈ getPseudoLegalMoves ⟨7, 4⟩ castleReadyBoard none fullRights ↔
      ((if PieceColor.white = PieceColor.white then fullRights.whiteKingside
        else fullRights.blackKingside) = true ∧
       castleReadyBoard.get 7 5 = none ∧ castleReadyBoard.get 7 6 = none ∧
       castleReadyBoard.get 7 7 = some ⟨PieceType.rook, PieceColor.white⟩ ∧
       isKingInCheck castleReadyBoard PieceColor.white = false ∧
       isSquareUnderAttack ⟨7, 5⟩ castleReadyBoard PieceColor.white.opposite = false ∧
       isSquareUnderAttack ⟨7, 6⟩ castleReadyBoard PieceColor.white.opposite = false) :=
  (C3_castling_generation castleReadyBoard none fullRights PieceColor.white 7 (by decide)
    (by decide)).1

theorem slideRay_zero (board : Board) (color : PieceColor) (r c dr dc : Int) :
    slideRay board color r c dr dc 0 = [] := rfl

theorem slideRay_succ (board : Board) (color : PieceColor) (r c dr dc : Int) (fuel : Nat) :
    slideRay board color r c dr dc (fuel + 1) =
      if isValidSquare r c then
        match board.get r c with
        | some t => if t.color ≠ color then [⟨r, c⟩] else []
        | none => ⟨r, c⟩ :: slideRay board color (r + dr) (c + dc) dr dc fuel
      else [] := rfl

/-- A sliding move's occupied destination always holds an enemy piece. -/
theorem slideRay_dest_enemy (board : Board) (color : PieceColor) :
    ∀ (fuel : Nat) (r c dr dc : Int) (x : Pos), x ∈ slideRay board color r c dr dc fuel →
      ∀ t, board.get x.row x.col = some t → t.color ≠ color := by
  intro fuel
  induction fuel with
  | zero =>
    intro r c dr dc x hx
    rw [slideRay_zero] at hx
    exact absurd hx (List.not_mem_nil x)
  | succ fuel ih =>
    intro r c dr dc x hx t ht
    rw [slideRay_succ] at hx
    by_cases hv : isValidSquare r c = true
    · rw [if_pos hv] at hx
      cases hG : board.get r c with
      | some t0 =>
        rw [hG] at hx
        dsimp only at hx
        by_cases hc : t0.color ≠ color
        · rw [if_pos hc, List.mem_singleton] at hx
          subst hx
          dsimp only at ht
          rw [hG] at ht
          injection ht with hh
          rw [← hh]
          exact hc
        · rw [if_neg hc] at hx
          exact absurd hx (List.not_mem_nil x)
      | none =>
        rw [hG] at hx
        dsimp only at hx
        rcases List.mem_cons.mp hx with rfl | hx2
        · dsimp only at ht
          rw [hG] at ht
          cases ht
        · exact ih (r + dr) (c + dc) dr dc x hx2 t ht
    · rw [if_neg hv] at hx
      exact absurd hx (List.not_mem_nil x)

/-- A destination passing `isEmptyOrEnemy`, when occupied, holds an enemy. -/
theorem isEmptyOrEnemy_dest (board : Board) (color : PieceColor) (r c : Int)
    (h : isEmptyOrEnemy board color r c = true) (t : Piece)
    (ht : board.get r c = some t) : t.color ≠ color := by
  simp only [isEmptyOrEnemy] at h
  by_cases hv : isValidSquare r c = true
  · rw [if_pos hv, ht] at h
    dsimp only at h
    exact bne_iff_ne.mp h
  · rw [if_neg hv] at h
    cases h

/-- Every castling destination square is empty by construction. -/
theorem castleMoves_dest_empty (board : Board) (cr : CastlingRights) (color : PieceColor)
    (row col : Int) (x : Pos) (hx : x ∈ castleMoves board cr color row col) :
    board.get x.row x.col = none := by
  simp only [castleMoves] at hx
  rw [mem_ite_nil_list] at hx
  obtain ⟨-, hx⟩ := hx
  by_cases hrc : row = (if color = PieceColor.white then (7 : Int) else 0) ∧ col = 4
  · rw [if_pos hrc, List.mem_append] at hx
    rcases hx with h | h
    · rw [mem_ite_list_nil, mem_ite_list_nil, mem_ite_list_nil] at h
      obtain ⟨-, ⟨-, h6, -⟩, -, hm⟩ := h
      rw [List.mem_singleton] at hm
      subst hm
      exact h6
    · rw [mem_ite_list_nil, mem_ite_list_nil, mem_ite_list_nil] at h
      obtain ⟨-, ⟨-, h2, -, -⟩, -, hm⟩ := h
      rw [List.mem_singleton] at hm
      subst hm
      exact h2
  · rw [if_neg hrc] at hx
    exact absurd hx (List.not_mem_nil x)

/-- A pawn move's occupied destination always holds an enemy piece, as long
as the en passant target square (if set) is an empty square. -/
theorem pawnMoves_dest_enemy (board : Board) (row col : Int) (color : PieceColor)
    (ep : Option Pos) (hep : ∀ tgt, ep = some tgt → board.get tgt.row tgt.col = none)
    (x : Pos) (hx : x ∈ pawnMoves board row col color ep)
    (t : Piece) (ht : board.get x.row x.col = some t) : t.color ≠ color := by
  simp only [pawnMoves] at hx
  generalize hdir : (if color = PieceColor.white then (-1 : Int) else 1) = dir at hx
  generalize hsr : (if color = PieceColor.white then (6 : Int) else 1) = sr at hx
  rw [List.mem_append] at hx
  rcases hx with hfwd | hcap
  · by_cases h1 : isValidSquare (row + dir) col = true ∧ board.get (row + dir) col = none
    · rw [if_pos h1] at hfwd
      by_cases h2 : row = sr ∧ board.get (row + 2 * dir) col = none
      · rw [if_pos h2] at hfwd
        rcases List.mem_cons.mp hfwd with rfl | hfwd2
        · dsimp only at ht
          rw [h1.2] at ht
          cases ht
        · rw [List.mem_singleton] at hfwd2
          subst hfwd2
          dsimp only at ht
          rw [h2.2] at ht
          cases ht
      · rw [if_neg h2, List.mem_singleton] at hfwd
        subst hfwd
        dsimp only at ht
        rw [h1.2] at ht
        cases ht
    · rw [if_neg h1] at hfwd
      exact absurd hfwd (List.not_mem_nil x)
  · obtain ⟨offset, hoff, hx2⟩ := List.mem_flatMap.mp hcap
    by_cases hv : isValidSquare (row + dir) (col + offset) = true
    · rw [if_pos hv, List.mem_append] at hx2
      rcases hx2 with hnorm | hepm
      · cases hG : board.get (row + dir) (col + offset) with
        | none =>
          rw [hG] at hnorm
          exact absurd hnorm (List.not_mem_nil x)
        | some target =>
          rw [hG] at hnorm
          dsimp only at hnorm
          by_cases htc : target.color ≠ color
          · rw [if_pos htc, List.mem_singleton] at hnorm
            subst hnorm
            dsimp only at ht
            rw [hG] at ht
            injection ht with hh
            rw [← hh]
            exact htc
          · rw [if_neg htc] at hnorm
            exact absurd hnorm (List.not_mem_nil x)
      · cases hE : ep with
        | none =>
          rw [hE] at hepm
          exact absurd hepm (List.not_mem_nil x)
        | some tgt =>
          rw [hE] at hepm
          dsimp only at hepm
          by_cases hco : row + dir = tgt.row ∧ col + offset = tgt.col
          · rw [if_pos hco, List.mem_singleton] at hepm
            subst hepm
            dsimp only at ht
            rw [hco.1, hco.2, hep tgt hE] at ht
            cases ht
          · rw [if_neg hco] at hepm
            exact absurd hepm (List.not_mem_nil x)
    · rw [if_neg hv] at hx2
      exact absurd hx2 (List.not_mem_nil x)

/-- Any pseudo-legal move's occupied destination holds an enemy piece (with
the en passant target square, if set, empty on the board). -/
theorem pseudo_dest_enemy (board : Board) (ep : Option Pos) (cr : CastlingRights)
    (pos : Pos) (piece : Piece) (hp : board.get pos.row pos.col = some piece)
    (hep : ∀ tgt, ep = some tgt → board.get tgt.row tgt.col = none)
    (x : Pos) (hx : x ∈ getPseudoLegalMoves pos board ep cr)
    (t : Piece) (ht : board.get x.row x.col = some t) :
    t.color ≠ piece.color := by
  obtain ⟨pt, pc⟩ := piece
  simp only [getPseudoLegalMoves, hp] at hx
  show t.color ≠ pc
  cases pt with
  | pawn => exact pawnMoves_dest_enemy board pos.row pos.col pc ep hep x hx t ht
  | knight =>
    obtain ⟨d, hd, hg⟩ := List.mem_filterMap.mp hx
    by_cases hempt : isEmptyOrEnemy board pc (pos.row + d.1) (pos.col + d.2) = true
    · rw [if_pos hempt] at hg
      injection hg with hg
      subst hg
      dsimp only at ht
      exact isEmptyOrEnemy_dest board pc (pos.row + d.1) (pos.col + d.2) hempt t ht
    · rw [if_neg hempt] at hg
      cases hg
  | bishop =>
    obtain ⟨d, hd, hx2⟩ := List.mem_flatMap.mp hx
    exact slideRay_dest_enemy board pc 8 (pos.row + d.1) (pos.col + d.2) d.1 d.2 x hx2 t ht
  | rook =>
    obtain ⟨d, hd, hx2⟩ := List.mem_flatMap.mp hx
    exact slideRay_dest_enemy board pc 8 (pos.row + d.1) (pos.col + d.2) d.1 d.2 x hx2 t ht
  | queen =>
    obtain ⟨d, hd, hx2⟩ := List.mem_flatMap.mp hx
    exact slideRay_dest_enemy board pc 8 (pos.row + d.1) (pos.col + d.2) d.1 d.2 x hx2 t ht
  | king =>
    rw [List.mem_append] at hx
    rcases hx with hb | hc
    · obtain ⟨d, hd, hg⟩ := List.mem_filterMap.mp hb
      by_cases hempt : isEmptyOrEnemy board pc (pos.row + d.1) (pos.col + d.2) = true
      · rw [if_pos hempt] at hg
        injection hg with hg
        subst hg
        dsimp only at ht
        exact isEmptyOrEnemy_dest board pc (pos.row + d.1) (pos.col + d.2) hempt t ht
      · rw [if_neg hempt] at hg
        cases hg
    · rw [castleMoves_dest_empty board cr pc pos.row pos.col x hc] at ht
      cases ht

/-- Any of Black's collected valid moves with an occupied destination lands
on a White piece (with the en passant target square, if set, empty). -/
theorem aiAllMoves_dest_white (board : Board) (ep : Option Pos) (cr : CastlingRights)
    (hep : ∀ tgt, ep = some tgt → board.get tgt.row tgt.col = none)
    (m : Pos × Pos) (hm : m ∈ aiAllMoves board ep cr)
    (t : Piece) (ht : board.get m.2.row m.2.col = some t) :
    t.color = PieceColor.white := by
  obtain ⟨q, hq, hmem⟩ := List.mem_flatMap.mp hm
  revert hmem
  cases hG : board.get q.1 q.2 with
  | none =>
    intro hmem
    exact absurd hmem (List.not_mem_nil m)
  | some p =>
    dsimp only
    by_cases hpc : p.color = PieceColor.black
    · rw [if_pos hpc]
      intro hmem
      obtain ⟨mv, hmv, hmeq⟩ := List.mem_map.mp hmem
      have hvalid : mv ∈ getValidMoves ⟨q.1, q.2⟩ board ep cr := hmv
      have hpseudo : mv ∈ getPseudoLegalMoves ⟨q.1, q.2⟩ board ep cr := by
        rw [getValidMoves] at hvalid
        revert hvalid
        cases hG2 : board.get (⟨q.1, q.2⟩ : Pos).row (⟨q.1, q.2⟩ : Pos).col with
        | none =>
          intro hvalid
          exact absurd hvalid (List.not_mem_nil mv)
        | some piece2 =>
          intro hvalid
          exact (List.mem_filter.mp hvalid).1
      have hne := pseudo_dest_enemy board ep cr ⟨q.1, q.2⟩ p (by dsimp only; exact hG) hep
        mv hpseudo t (by rw [← hmeq] at ht; exact ht)
      rw [hpc] at hne
      cases hc : t.color with
      | white => rfl
      | black => rw [hc] at hne; exact absurd rfl hne
    · rw [if_neg hpc]
      intro hmem
      exact absurd hmem (List.not_mem_nil m)

/-- The capture tier as claim C8 words it: moves landing on an occupied
ENEMY (White) square.  Written from the claim, for comparison with
`aiCaptureMoves`. -/
def enemyCaptureMoves (board : Board) (moves : List (Pos × Pos)) : List (Pos × Pos) :=
  moves.filter fun m => (board.get m.2.row m.2.col).any fun p => p.color == PieceColor.white

/-- The ordered selection policy exactly as claim C8 words it: in check
prefer king moves, else enemy-square captures, else any legal move; out of
check any legal move.  Written from the claim, for comparison with
`aiSelectionPool`. -/
def claimSelectionPool (board : Board) (moves : List (Pos × Pos)) : List (Pos × Pos) :=
  if isKingInCheck board PieceColor.black then
    if !(aiKingMoves board moves).isEmpty then aiKingMoves board moves
    else if !(enemyCaptureMoves board moves).isEmpty then enemyCaptureMoves board moves
    else moves
  else moves

theorem aiCaptureMoves_eq_enemy (board : Board) (ep : Option Pos) (cr : CastlingRights)
    (hep : ∀ tgt, ep = some tgt → board.get tgt.row tgt.col = none) :
    aiCaptureMoves board (aiAllMoves board ep cr) =
      enemyCaptureMoves board (aiAllMoves board ep cr) := by
  rw [aiCaptureMoves, enemyCaptureMoves]
  apply List.filter_congr
  intro m hm
  cases ht : board.get m.2.row m.2.col with
  | none => rfl
  | some t =>
    have hw := aiAllMoves_dest_white board ep cr hep m hm t ht
    simp [Option.isSome, Option.any, hw]

/-- Claim C8: whenever Black's legal-move union is non-empty (and the en
passant target, if set, names an empty square, as every state handed to the
selector does), the opponent selector's random choice is drawn from exactly
the claim's ordered pool — in check: king moves if any, else moves onto
occupied enemy squares if any, else all legal moves; out of check: all
legal moves — and it always returns some member of that pool. -/
theorem C8_ai_selection (board : Board) (ep : Option Pos) (cr : CastlingRights) (idx : Nat)
    (hep : ∀ tgt, ep = some tgt → board.get tgt.row tgt.col = none)
    (hne : aiAllMoves board ep cr ≠ []) :
    chooseAIMove board ep cr idx =
      pickAt (claimSelectionPool board (aiAllMoves board ep cr)) idx ∧
    ∃ m, chooseAIMove board ep cr idx = some m ∧
      m ∈ claimSelectionPool board (aiAllMoves board ep cr) := by
  have hcap := aiCaptureMoves_eq_enemy board ep cr hep
  have hpool : aiSelectionPool board (aiAllMoves board ep cr) =
      claimSelectionPool board (aiAllMoves board ep cr) := by
    rw [aiSelectionPool, claimSelectionPool, hcap]
  have hpne : claimSelectionPool board (aiAllMoves board ep cr) ≠ [] := by
    rw [claimSelectionPool]
    split
    · split
      · next h =>
        intro hcon
        rw [hcon] at h
        simp at h
      · split
        · next h =>
          intro hcon
          rw [hcon] at h
          simp at h
        · exact hne
    · exact hne
  have hlen : 0 < (claimSelectionPool board (aiAllMoves board ep cr)).length :=
    List.length_pos.mpr hpne
  have hlt : idx % (claimSelectionPool board (aiAllMoves board ep cr)).length <
      (claimSelectionPool board (aiAllMoves board ep cr)).length := Nat.mod_lt _ hlen
  refine ⟨by rw [chooseAIMove, hpool], ?_⟩
  rw [chooseAIMove, hpool, pickAt]
  exact ⟨_, List.get?_eq_get hlt, List.get_mem _ _ _⟩

/-- Witness board for C8: Black king and a Black pawn against the White
king; Black is not in check, so the pool is the full legal-move list. -/
def aiWitnessBoard : Board := boardOfList
  [(0, 0, ⟨.king, .black⟩), (1, 4, ⟨.pawn, .black⟩), (7, 7, ⟨.king, .white⟩)]

/-- Witness for C8 at a concrete input with random draw 0. -/
theorem C8_ai_selection_witness :
    chooseAIMove aiWitnessBoard none fullRights 0 =
      pickAt (claimSelectionPool aiWitnessBoard (aiAllMoves aiWitnessBoard none fullRights)) 0 ∧
    ∃ m, chooseAIMove aiWitnessBoard none fullRights 0 = some m ∧
      m ∈ claimSelectionPool aiWitnessBoard (aiAllMoves aiWitnessBoard none fullRights) :=
  C8_ai_selection aiWitnessBoard none fullRights 0
    (fun tgt h => Option.noConfusion h) (by decide)
